import Mathlib

/-!
# Verification of the freetar-nextjs tab-markup core

Shallow embedding of the tab-markup normalization and chord-diagram
derivation engine of the freetar-nextjs repository, together with the
setlist-viewer navigation logic of `src/app/setlist/page.tsx`, and proofs
of the specified properties.

The normalizer and diagram-builder operations (`extractChord`,
`renderHtml`, `toChordPro`, `parseChordPro`, `buildDiagram`) are not part
of the source tree given under `src/` (only the data-model declarations in
`src/types/index.ts` and the setlist page are); those operations are
modelled from the specification, as marked on each definition.
-/

namespace Freetar

/-! ## Chord-token grammar -/

/-- Modelled from the spec: a root (and a bass) note starts with one note
letter in `A`..`G`. -/
def isNoteLetter (c : Char) : Bool :=
  'A' ≤ c && c ≤ 'G'

/-- Modelled from the spec: an optional accidental suffix `#` or `b` on a
note letter. -/
def isAccidental (c : Char) : Bool :=
  c = '#' || c = 'b'

/-- Modelled from the spec: a valid note (root or bass) is one note letter
optionally followed by one accidental. -/
def validNote (s : List Char) : Bool :=
  match s with
  | [c] => isNoteLetter c
  | [c, a] => isNoteLetter c && isAccidental a
  | _ => false

/-- Modelled from the spec: one recognized chord occurrence, classified
into root / quality / optional bass (the three semantic fields of
`ChordToken` in the data model). -/
structure ChordToken where
  root : List Char
  quality : List Char
  bass : Option (List Char)
deriving DecidableEq

/-- Modelled from the spec: the error signalled when a chord tag interior
does not start with a valid note letter (`MalformedChordTag`). -/
inductive ChordError where
  | malformedChord
deriving DecidableEq

/-- Modelled from the spec: the bass-extraction step of `extractChord`
applied to whatever follows the `quality` segment.  A `/` immediately
followed by a valid note letter yields `<note><optional accidental>` as
the bass; a `/` followed by nothing, another `/`, or a non-note character
is a scraping artifact: it is not consumed as bass. -/
def bassOf (rest2 : List Char) : Option (List Char) :=
  match rest2 with
  | '/' :: b :: afterBass =>
    if isNoteLetter b then
      match afterBass with
      | a :: _ => if isAccidental a then some [b, a] else some [b]
      | [] => some [b]
    else none
  | _ => none

/-- Modelled from the spec: `extractChord` over the interior of a
`[ch]...[/ch]` tag, absent from `src/`.
1. the longest prefix matching the root grammar (one note letter, optional
   `#`/`b`) becomes `root`; no valid note letter at the start fails with
   `MalformedChordError`;
2. the remainder is greedily consumed into `quality` up to the first `/`;
3. the bass, if any, is read off the remaining suffix by `bassOf`. -/
def extractChord (s : List Char) : Except ChordError ChordToken :=
  match s with
  | [] => .error .malformedChord
  | c :: rest =>
    if isNoteLetter c then
      match rest with
      | a :: tailRest =>
        if isAccidental a then
          .ok ⟨[c, a], tailRest.takeWhile (fun x => x ≠ '/'),
               bassOf (tailRest.dropWhile (fun x => x ≠ '/'))⟩
        else
          .ok ⟨[c], (a :: tailRest).takeWhile (fun x => x ≠ '/'),
               bassOf ((a :: tailRest).dropWhile (fun x => x ≠ '/'))⟩
      | [] => .ok ⟨[c], [], none⟩
    else .error .malformedChord

example : extractChord "A/".data = .ok ⟨"A".data, [], none⟩ := rfl
example : extractChord "G7/B".data = .ok ⟨"G".data, "7".data, some "B".data⟩ := rfl
example : extractChord "C#m/Eb".data = .ok ⟨"C#".data, "m".data, some "Eb".data⟩ := rfl
example : extractChord "xm".data = .error .malformedChord := rfl

/-! ## Helper lemmas on the quality scan -/

theorem takeWhile_append_slash (l r : List Char) (h : '/' ∉ l) :
    (l ++ '/' :: r).takeWhile (fun x => x ≠ '/') = l := by
  induction l with
  | nil => simp [List.takeWhile]
  | cons c cs ih =>
    have hc : c ≠ '/' := fun hc => h (hc ▸ List.mem_cons_self c cs)
    have hcs : '/' ∉ cs := fun hm => h (List.mem_cons_of_mem c hm)
    simp only [List.cons_append, List.takeWhile_cons, decide_not, hc, decide_False,
      Bool.not_false, if_true, List.cons.injEq, true_and]
    simpa using ih hcs

theorem dropWhile_append_slash (l r : List Char) (h : '/' ∉ l) :
    (l ++ '/' :: r).dropWhile (fun x => x ≠ '/') = '/' :: r := by
  induction l with
  | nil => simp [List.dropWhile]
  | cons c cs ih =>
    have hc : c ≠ '/' := fun hc => h (hc ▸ List.mem_cons_self c cs)
    have hcs : '/' ∉ cs := fun hm => h (List.mem_cons_of_mem c hm)
    simp only [List.cons_append, List.dropWhile_cons, decide_not, hc, decide_False,
      Bool.not_false, if_true]
    simpa using ih hcs

theorem bassOf_validNote (b : List Char) (h : validNote b = true) :
    bassOf ('/' :: b) = some b := by
  match b with
  | [c] =>
    simp only [validNote] at h
    simp [bassOf, h]
  | [c, a] =>
    simp only [validNote, Bool.and_eq_true] at h
    simp [bassOf, h.1, h.2]

theorem bassOf_isValid (l b : List Char) (h : bassOf l = some b) :
    validNote b = true := by
  unfold bassOf at h
  split at h
  · split at h
    · rename_i x afterBass hx
      split at h
      · split at h
        · rename_i a tail ha
          simp only [Option.some.injEq] at h
          subst h
          simp [validNote, hx, ha]
        · simp only [Option.some.injEq] at h
          subst h
          simp [validNote, hx]
      · simp only [Option.some.injEq] at h
        subst h
        simp [validNote, hx]
    · simp at h
  · simp at h

theorem noteLetter_ne_slash (c : Char) (h : isNoteLetter c = true) : c ≠ '/' := by
  intro hc
  subst hc
  simp [isNoteLetter] at h

theorem accidental_ne_slash (c : Char) (h : isAccidental c = true) : c ≠ '/' := by
  intro hc
  subst hc
  simp [isAccidental] at h

theorem validNote_no_slash (r : List Char) (h : validNote r = true) : '/' ∉ r := by
  match r with
  | [c] =>
    simp only [validNote] at h
    intro hm
    rcases List.mem_singleton.mp hm with rfl
    exact noteLetter_ne_slash _ h rfl
  | [c, a] =>
    simp only [validNote, Bool.and_eq_true] at h
    intro hm
    rcases List.mem_cons.mp hm with rfl | hm2
    · exact noteLetter_ne_slash _ h.1 rfl
    · rcases List.mem_singleton.mp hm2 with rfl
      exact accidental_ne_slash _ h.2 rfl

/-- Every successful extraction decomposes the input as a valid root
followed by a remainder scanned by the quality/bass rules. -/
theorem extractChord_ok_shape (s : List Char) (t : ChordToken)
    (h : extractChord s = .ok t) :
    ∃ rest1, s = t.root ++ rest1 ∧ validNote t.root = true ∧
      t.quality = rest1.takeWhile (fun x => x ≠ '/') ∧
      t.bass = bassOf (rest1.dropWhile (fun x => x ≠ '/')) := by
  unfold extractChord at h
  split at h
  · exact absurd h (by simp)
  · rename_i c rest
    split at h
    · rename_i hc
      split at h
      · rename_i a tailRest
        split at h
        · rename_i ha
          simp only [Except.ok.injEq] at h
          subst h
          exact ⟨tailRest, by simp, by simp [validNote, hc, ha], rfl, rfl⟩
        · rename_i ha
          simp only [Except.ok.injEq] at h
          subst h
          exact ⟨a :: tailRest, by simp, by simp [validNote, hc], rfl, rfl⟩
      · simp only [Except.ok.injEq] at h
        subst h
        exact ⟨[], by simp, by simp [validNote, hc], rfl, rfl⟩
    · exact absurd h (by simp)

theorem append_singleton_split (x : Char) :
    ∀ (a s b : List Char), x ∉ a → s ++ [x] = a ++ b →
      ∃ c, s = a ++ c ∧ b = c ++ [x] := by
  intro a
  induction a with
  | nil =>
    intro s b _ h
    exact ⟨s, by simp, h.symm⟩
  | cons d ds ih =>
    intro s b hx h
    cases s with
    | nil =>
      exfalso
      rw [List.nil_append, List.cons_append] at h
      injection h with h1 h2
      exact hx (by rw [h1]; exact List.mem_cons_self _ _)
    | cons e es =>
      rw [List.cons_append, List.cons_append] at h
      injection h with h1 h2
      subst h1
      obtain ⟨c, hc1, hc2⟩ := ih es b (fun hm => hx (List.mem_cons_of_mem _ hm)) h2
      exact ⟨c, by rw [hc1, List.cons_append], hc2⟩

/-- A trailing `/` after a slash-free interior never yields a bass, and
the slash survives into no field of the token. -/
theorem extractChord_trailing_slash (s : List Char) (hs : '/' ∉ s)
    (t : ChordToken) (h : extractChord (s ++ ['/']) = .ok t) :
    t.bass = none ∧ '/' ∉ t.root ∧ '/' ∉ t.quality := by
  obtain ⟨rest1, heq, hroot, hq, hb⟩ := extractChord_ok_shape _ _ h
  have hrs : '/' ∉ t.root := validNote_no_slash _ hroot
  obtain ⟨c, hc1, hc2⟩ := append_singleton_split '/' t.root s rest1 hrs heq
  have hcs : '/' ∉ c := fun hm => hs (hc1 ▸ List.mem_append_right _ hm)
  subst hc2
  have htake : (c ++ ['/']).takeWhile (fun x => x ≠ '/') = c :=
    takeWhile_append_slash c [] hcs
  have hdrop : (c ++ ['/']).dropWhile (fun x => x ≠ '/') = ['/'] :=
    dropWhile_append_slash c [] hcs
  refine ⟨?_, hrs, ?_⟩
  · rw [hb, hdrop]
    rfl
  · rw [hq, htake]
    exact hcs

/-- A chord tag of the shape `root ++ quality ++ "/" ++ bassNote` with a
valid bass note extracts to exactly those three fields. -/
theorem extractChord_decomp (r q b : List Char) (hr : validNote r = true)
    (hq : '/' ∉ q)
    (hhead : r.length = 2 ∨ ∀ a, q.head? = some a → isAccidental a = false)
    (hb : validNote b = true) :
    extractChord (r ++ q ++ '/' :: b) = .ok ⟨r, q, some b⟩ := by
  match r, hr with
  | [c], hr =>
    have hc : isNoteLetter c = true := by simpa [validNote] using hr
    cases q with
    | nil =>
      show extractChord (c :: '/' :: b) = _
      simp only [extractChord]
      rw [if_pos hc]
      have ha : ¬ isAccidental '/' = true := by decide
      rw [if_neg ha]
      have htake : ('/' :: b).takeWhile (fun x => x ≠ '/') = [] := by
        simp [List.takeWhile]
      have hdrop : ('/' :: b).dropWhile (fun x => x ≠ '/') = '/' :: b := by
        simp [List.dropWhile]
      rw [htake, hdrop, bassOf_validNote b hb]
    | cons a q2 =>
      have ha : isAccidental a = false := by
        rcases hhead with h2 | hh
        · simp at h2
        · exact hh a rfl
      have hinput : ([c] : List Char) ++ (a :: q2) ++ '/' :: b
          = c :: a :: (q2 ++ '/' :: b) := by simp
      rw [hinput]
      simp only [extractChord]
      rw [if_pos hc, if_neg (by simp [ha])]
      rw [← List.cons_append a q2 ('/' :: b)]
      rw [takeWhile_append_slash _ _ hq, dropWhile_append_slash _ _ hq,
        bassOf_validNote b hb]
  | [c, a], hr =>
    have hc : isNoteLetter c = true := by
      simp only [validNote, Bool.and_eq_true] at hr
      exact hr.1
    have ha : isAccidental a = true := by
      simp only [validNote, Bool.and_eq_true] at hr
      exact hr.2
    show extractChord (c :: a :: (q ++ '/' :: b)) = _
    simp only [extractChord]
    rw [if_pos hc, if_pos ha]
    rw [takeWhile_append_slash _ _ hq, dropWhile_append_slash _ _ hq,
      bassOf_validNote b hb]

/-- Any bass a successful extraction produces matches the note grammar. -/
theorem extractChord_bass_valid (s : List Char) (t : ChordToken)
    (h : extractChord s = .ok t) (b : List Char) (hb : t.bass = some b) :
    validNote b = true := by
  obtain ⟨rest1, _, _, _, hbass⟩ := extractChord_ok_shape _ _ h
  exact bassOf_isValid _ b (by rw [← hbass]; exact hb)

/-! ## Claim C1 and C5 -/

/-- **C1**: for every tag interior, `extractChord` sets `bass` to the note
letter (with optional accidental) following a `/` exactly when that `/` is
immediately followed by a valid note letter; otherwise `bass` is `null`
and no trailing `/` survives into any field.  In particular, for all
slash-free `s`, `extractChord (s ++ "/")` yields `bass = null`; and
`"A/"`, `"G7/B"`, `"C#m/Eb"` extract as in the spec's examples. -/
theorem C1_extractChord_bass_exactly_when :
    (∀ s : List Char, '/' ∉ s → ∀ t, extractChord (s ++ ['/']) = .ok t →
        t.bass = none ∧ '/' ∉ t.root ∧ '/' ∉ t.quality)
    ∧ (∀ r q b : List Char, validNote r = true → '/' ∉ q →
        (r.length = 2 ∨ ∀ a, q.head? = some a → isAccidental a = false) →
        validNote b = true →
        extractChord (r ++ q ++ '/' :: b) = .ok ⟨r, q, some b⟩)
    ∧ (∀ s t, extractChord s = .ok t → ∀ b, t.bass = some b →
        validNote b = true)
    ∧ extractChord "A/".data = .ok ⟨"A".data, [], none⟩
    ∧ extractChord "G7/B".data = .ok ⟨"G".data, "7".data, some "B".data⟩
    ∧ extractChord "C#m/Eb".data = .ok ⟨"C#".data, "m".data, some "Eb".data⟩ :=
  ⟨extractChord_trailing_slash, extractChord_decomp,
    extractChord_bass_valid, rfl, rfl, rfl⟩

/-- Witness for C1: the trailing-slash part at `s = "Cm"` and the
decomposition part at `root = "G"`, `quality = "7"`, `bass = "B"`. -/
theorem C1_extractChord_bass_exactly_when_witness :
    ('/' ∉ "Cm".data)
    ∧ ((⟨"C".data, "m".data, none⟩ : ChordToken).bass = none
        ∧ '/' ∉ (⟨"C".data, "m".data, none⟩ : ChordToken).root
        ∧ '/' ∉ (⟨"C".data, "m".data, (none : Option (List Char))⟩ : ChordToken).quality)
    ∧ extractChord ("G".data ++ "7".data ++ '/' :: "B".data)
        = .ok ⟨"G".data, "7".data, some "B".data⟩ := by
  refine ⟨by decide, ?_, ?_⟩
  · exact C1_extractChord_bass_exactly_when.1 "Cm".data (by decide) _ rfl
  · refine C1_extractChord_bass_exactly_when.2.1 "G".data "7".data "B".data
      (by decide) (by decide) (Or.inr ?_) (by decide)
    intro a ha
    have haEq : '7' = a := by simpa using ha
    subst haEq
    decide

/-- **C5**: for every input string, the `quality` field of the token
returned by `extractChord` never contains the character `/`. -/
theorem C5_quality_never_contains_slash (s : List Char) (t : ChordToken)
    (h : extractChord s = .ok t) : '/' ∉ t.quality := by
  obtain ⟨rest1, _, _, hq, _⟩ := extractChord_ok_shape s t h
  intro hm
  rw [hq] at hm
  have := List.mem_takeWhile_imp hm
  simp at this

/-- Witness for C5 at the interior `"C#m/Eb"`. -/
theorem C5_quality_never_contains_slash_witness :
    '/' ∉ (⟨"C#".data, "m".data, some "Eb".data⟩ : ChordToken).quality :=
  C5_quality_never_contains_slash "C#m/Eb".data _ rfl

/-! ## Rendering (claim C7) -/

/-- Modelled from the spec: one scanned piece of the tab document — either
literal text or the interior of a `[ch]...[/ch]` chord tag.  The scan for
the third-party tag markers is mechanical and the renderer is modelled at
this segment level, processing segments left to right. -/
inductive Segment where
  | text : List Char → Segment
  | chord : List Char → Segment
deriving DecidableEq

/-- Modelled from the spec: literal whitespace is converted to
non-breaking-space equivalents so that monospace alignment survives. -/
def nbspify (l : List Char) : List Char :=
  l.map (fun c => if c = ' ' then ' ' else c)

/-- Modelled from the spec: a recognized chord is rendered as an outer
wrapper containing a root element, a quality element, and, if present, a
bass element rendered as `/` + bass. -/
def renderToken (t : ChordToken) : List Char :=
  "<span><span>".data ++ t.root ++ "</span><span>".data ++ t.quality
    ++ "</span>".data
    ++ (match t.bass with
        | some b => "<span>/".data ++ b ++ "</span>".data
        | none => [])
    ++ "</span>".data

/-- Modelled from the spec: rendering one segment; a chord tag whose
interior fails root extraction is passed through as literal text (never
dropped, never a crash). -/
def renderSegment (seg : Segment) : List Char :=
  match seg with
  | .text t => nbspify t
  | .chord s =>
    match extractChord s with
    | .ok t => renderToken t
    | .error _ => s

/-- Modelled from the spec: `renderHtml` over the scanned segment list. -/
def renderHtml (segs : List Segment) : List Char :=
  match segs with
  | [] => []
  | seg :: rest => renderSegment seg ++ renderHtml rest

/-- Whether a tag interior starts with a valid root note letter. -/
def hasValidRootStart (s : List Char) : Bool :=
  match s with
  | [] => false
  | c :: _ => isNoteLetter c

/-- **C7**: a chord tag whose interior does not start with a valid note
letter makes `extractChord` signal `MalformedChordError` as a value (no
raise), and rendering passes the tag content through as literal text that
is never dropped from the output. -/
theorem C7_malformed_tag_passthrough (s : List Char)
    (h : hasValidRootStart s = false) :
    extractChord s = .error .malformedChord
    ∧ renderSegment (.chord s) = s
    ∧ ∀ segs : List Segment, Segment.chord s ∈ segs →
        ∃ pre post, renderHtml segs = pre ++ s ++ post := by
  have herr : extractChord s = .error .malformedChord := by
    cases s with
    | nil => rfl
    | cons c rest =>
      simp only [hasValidRootStart] at h
      simp [extractChord, h]
  have hseg : renderSegment (.chord s) = s := by
    simp [renderSegment, herr]
  refine ⟨herr, hseg, ?_⟩
  intro segs hmem
  induction segs with
  | nil => cases hmem
  | cons sg rest ih =>
    rcases List.mem_cons.mp hmem with rfl | hmem2
    · exact ⟨[], renderHtml rest, by simp [renderHtml, hseg]⟩
    · obtain ⟨pre, post, hpp⟩ := ih hmem2
      exact ⟨renderSegment sg ++ pre, post, by simp [renderHtml, hpp]⟩

/-- Witness for C7 at the malformed interior `"xm"`. -/
theorem C7_malformed_tag_passthrough_witness :
    (hasValidRootStart "xm".data = false)
    ∧ extractChord "xm".data = .error .malformedChord
    ∧ renderSegment (.chord "xm".data) = "xm".data :=
  ⟨by decide, (C7_malformed_tag_passthrough "xm".data (by decide)).1,
    (C7_malformed_tag_passthrough "xm".data (by decide)).2.1⟩

/-! ## Chord-diagram builder (claims C2, C3, C4, C8) -/

/-- Modelled from the spec: the applicature of one chord variant — an
ordered sequence of six integers, one per string, each a non-negative
fret number or a sentinel meaning "string not played" (modelled as any
negative value). -/
abbrev FretPosition := List Int

/-- Modelled from the spec: the error for a chord variant with no
playable string (`EmptyChordDiagram`). -/
inductive DiagramError where
  | emptyChordDiagram
deriving DecidableEq

/-- Modelled from the spec: the derived diagram for one `FretPosition`:
fret range of the fretted positions, the window anchor, the 6×6 pressed
grid, and the per-string finger labels. -/
structure ChordDiagram where
  minFret : Int
  maxFret : Int
  windowStart : Int
  grid : List (List Bool)
  fingerLabels : List Char
deriving DecidableEq

def minOf : List Int → Option Int
  | [] => none
  | v :: rest =>
    match minOf rest with
    | none => some v
    | some m => some (min v m)

def maxOf : List Int → Option Int
  | [] => none
  | v :: rest =>
    match maxOf rest with
    | none => some v
    | some m => some (max v m)

/-- The fretted (non-sentinel, non-open) values of an applicature. -/
def frettedOf (ps : FretPosition) : List Int :=
  ps.filter (fun v => 0 < v)

/-- `minFret`: minimum over the fretted values only. -/
def minFretCalc (ps : FretPosition) : Int :=
  (minOf (frettedOf ps)).getD 0

/-- `maxFret`: maximum over the fretted values only. -/
def maxFretCalc (ps : FretPosition) : Int :=
  (maxOf (frettedOf ps)).getD 0

/-- `windowStart`: `max 0 minFret` anchoring the 6-fret display window. -/
def windowStartCalc (ps : FretPosition) : Int :=
  max 0 (minFretCalc ps)

/-- The 6-string × 6-row pressed grid; a fretted note whose fret falls
outside the window rows is clipped (appears in no row). -/
def gridCalc (ps : FretPosition) : List (List Bool) :=
  (List.range 6).map (fun (i : Nat) =>
    (List.range 6).map (fun (r : Nat) =>
      decide (0 < ps.getD i (-1)
        ∧ ps.getD i (-1) = windowStartCalc ps + (r : Int))))

/-- Per-string labels: source finger labels verbatim when present, else
the muted/open/pressed markers. -/
def labelsCalc (ps : FretPosition) (fingers : Option (List Char)) :
    List Char :=
  match fingers with
  | some fs => fs
  | none => ps.map (fun v => if v < 0 then 'x' else if v = 0 then 'o' else ' ')

/-- Modelled from the spec: `buildDiagram`, absent from `src/`.  Fails
with `EmptyChordDiagram` when no string is playable; otherwise computes
`minFret`/`maxFret` over the fretted (non-sentinel, non-open) values
only, anchors the fixed 6-row window at `max 0 minFret`, marks the grid
cell of every fretted note whose fret falls inside the window (notes
outside are clipped), and takes per-string finger labels verbatim from
the source data when present, else the muted/open/pressed markers. -/
def buildDiagram (ps : FretPosition) (fingers : Option (List Char)) :
    Except DiagramError ChordDiagram :=
  if ps.all (fun v => v < 0) then .error .emptyChordDiagram
  else
    .ok ⟨minFretCalc ps, maxFretCalc ps, windowStartCalc ps,
      gridCalc ps, labelsCalc ps fingers⟩

/-- Modelled from the spec: the caller-facing surface of a diagram
request — a failed build degrades to a visible "no diagram available"
state instead of aborting. -/
inductive DiagramView where
  | diagram : ChordDiagram → DiagramView
  | noDiagramAvailable : DiagramView
deriving DecidableEq

def diagramView (ps : FretPosition) (fingers : Option (List Char)) :
    DiagramView :=
  match buildDiagram ps fingers with
  | .ok d => .diagram d
  | .error .emptyChordDiagram => .noDiagramAvailable

def minFretOf (e : Except DiagramError ChordDiagram) : Option Int :=
  match e with
  | .ok d => some d.minFret
  | .error _ => none

def maxFretOf (e : Except DiagramError ChordDiagram) : Option Int :=
  match e with
  | .ok d => some d.maxFret
  | .error _ => none

def windowStartOf (e : Except DiagramError ChordDiagram) : Option Int :=
  match e with
  | .ok d => some d.windowStart
  | .error _ => none

/-! ## Helper lemmas for the diagram builder -/

theorem minOf_mem (l : List Int) (m : Int) (h : minOf l = some m) : m ∈ l := by
  induction l generalizing m with
  | nil => simp [minOf] at h
  | cons v rest ih =>
    unfold minOf at h
    split at h
    · simp only [Option.some.injEq] at h
      subst h
      exact List.mem_cons_self _ _
    · rename_i m0 hm0
      simp only [Option.some.injEq] at h
      subst h
      rcases le_total v m0 with hle | hle
      · rw [min_eq_left hle]
        exact List.mem_cons_self _ _
      · rw [min_eq_right hle]
        exact List.mem_cons_of_mem _ (ih m0 hm0)

theorem minOf_of_ne_nil (l : List Int) (h : l ≠ []) :
    ∃ m, minOf l = some m := by
  cases l with
  | nil => exact absurd rfl h
  | cons v rest =>
    unfold minOf
    split
    · exact ⟨v, rfl⟩
    · exact ⟨_, rfl⟩

theorem minFretCalc_pos (ps : FretPosition) (v : Int) (hv : v ∈ ps)
    (hvpos : 0 < v) : 0 < minFretCalc ps := by
  have hmem : v ∈ frettedOf ps := by
    simp only [frettedOf, List.mem_filter]
    exact ⟨hv, by simpa using hvpos⟩
  have hne : frettedOf ps ≠ [] := fun hnil => by simp [hnil] at hmem
  obtain ⟨m, hm⟩ := minOf_of_ne_nil _ hne
  have : m ∈ frettedOf ps := minOf_mem _ _ hm
  have hmpos : 0 < m := by
    simp only [frettedOf, List.mem_filter] at this
    simpa using this.2
  simp [minFretCalc, hm, hmpos]

theorem windowStartCalc_of_fretted (ps : FretPosition) (v : Int)
    (hv : v ∈ ps) (hvpos : 0 < v) : windowStartCalc ps = minFretCalc ps :=
  max_eq_right (le_of_lt (minFretCalc_pos ps v hv hvpos))

theorem not_all_sentinel (ps : FretPosition) (v : Int) (hv : v ∈ ps)
    (hvnonneg : 0 ≤ v) : ¬ ps.all (fun v => v < 0) = true := by
  intro hall
  rw [List.all_eq_true] at hall
  have := hall v hv
  simp only [decide_eq_true_eq] at this
  omega

theorem getD_map_range {α : Type} (n : Nat) (f : Nat → α) (i : Nat)
    (hi : i < n) (d : α) : ((List.range n).map f).getD i d = f i := by
  rw [List.getD_eq_getElem?_getD, List.getElem?_map, List.getElem?_range hi]
  rfl

/-! ## Claims C2, C3, C4, C8 -/

/-- **C2**: a 6-element all-sentinel applicature fails with
`EmptyChordDiagram`; any 6-element applicature with at least one
non-sentinel entry does not fail; and the failure surfaces to the caller
as a non-fatal "no diagram available" view. -/
theorem C2_empty_chord_diagram :
    (∀ (ps : FretPosition) (fingers : Option (List Char)),
        ps.length = 6 → (∀ v ∈ ps, v < 0) →
        buildDiagram ps fingers = .error .emptyChordDiagram)
    ∧ (∀ (ps : FretPosition) (fingers : Option (List Char)),
        ps.length = 6 → (∃ v ∈ ps, 0 ≤ v) →
        ∃ d, buildDiagram ps fingers = .ok d)
    ∧ (∀ (ps : FretPosition) (fingers : Option (List Char)),
        ps.length = 6 → (∀ v ∈ ps, v < 0) →
        diagramView ps fingers = .noDiagramAvailable) := by
  refine ⟨?_, ?_, ?_⟩
  · intro ps fingers _ hall
    have : ps.all (fun v => v < 0) = true := by
      rw [List.all_eq_true]
      intro v hv
      simpa using hall v hv
    simp [buildDiagram, this]
  · intro ps fingers _ hex
    obtain ⟨v, hv, hvnonneg⟩ := hex
    rw [buildDiagram, if_neg (not_all_sentinel ps v hv hvnonneg)]
    exact ⟨_, rfl⟩
  · intro ps fingers _ hall
    have : ps.all (fun v => v < 0) = true := by
      rw [List.all_eq_true]
      intro v hv
      simpa using hall v hv
    simp [diagramView, buildDiagram, this]

/-- Witness for C2 at the all-sentinel input and at an E-major shape. -/
theorem C2_empty_chord_diagram_witness :
    buildDiagram [-1, -1, -1, -1, -1, -1] none = .error .emptyChordDiagram
    ∧ diagramView [-1, -1, -1, -1, -1, -1] none = .noDiagramAvailable := by
  refine ⟨?_, ?_⟩
  · exact C2_empty_chord_diagram.1 [-1, -1, -1, -1, -1, -1] none (by decide)
      (by decide)
  · exact C2_empty_chord_diagram.2.2 [-1, -1, -1, -1, -1, -1] none (by decide)
      (by decide)

/-- **C4**: with at least one fretted entry the build succeeds,
`windowStart = max 0 minFret`, a span of 6 or more frets still anchors
the window at `minFret`, and the grid is the fixed 6×6 window in which a
cell is pressed exactly when its string is fretted at the corresponding
window row — fretted notes outside the window simply have no row. -/
theorem C4_window_anchoring (ps : FretPosition)
    (fingers : Option (List Char)) (hex : ∃ v ∈ ps, 0 < v) :
    ∃ d, buildDiagram ps fingers = .ok d
      ∧ d.windowStart = max 0 d.minFret
      ∧ (6 ≤ d.maxFret - d.minFret → d.windowStart = d.minFret)
      ∧ d.grid.length = 6
      ∧ (∀ row ∈ d.grid, row.length = 6)
      ∧ (∀ i r : Nat, i < 6 → r < 6 →
          ((d.grid.getD i []).getD r false = true ↔
            0 < ps.getD i (-1)
              ∧ ps.getD i (-1) = d.windowStart + (r : Int))) := by
  obtain ⟨v, hv, hvpos⟩ := hex
  rw [buildDiagram, if_neg (not_all_sentinel ps v hv (le_of_lt hvpos))]
  refine ⟨_, rfl, rfl, ?_, ?_, ?_, ?_⟩
  · intro _
    exact windowStartCalc_of_fretted ps v hv hvpos
  · show (gridCalc ps).length = 6
    rw [gridCalc, List.length_map, List.length_range]
  · intro row hrow
    rw [show (⟨minFretCalc ps, maxFretCalc ps, windowStartCalc ps, gridCalc ps,
        labelsCalc ps fingers⟩ : ChordDiagram).grid = gridCalc ps from rfl,
      gridCalc, List.mem_map] at hrow
    obtain ⟨i, -, hrow⟩ := hrow
    rw [← hrow, List.length_map, List.length_range]
  · intro i r hi hr
    show ((gridCalc ps).getD i []).getD r false = true ↔ _
    rw [gridCalc, getD_map_range 6 _ i hi, getD_map_range 6 _ r hr]
    exact decide_eq_true_iff

/-- Witness for C4 at the A-minor shape `[x,0,2,2,1,0]`. -/
theorem C4_window_anchoring_witness :
    ((2 : Int) ∈ ([-1, 0, 2, 2, 1, 0] : FretPosition) ∧ (0 : Int) < 2)
    ∧ windowStartOf (buildDiagram [-1, 0, 2, 2, 1, 0] none)
        = some (max 0 ((minFretOf (buildDiagram [-1, 0, 2, 2, 1, 0] none)).getD 0)) := by
  refine ⟨⟨by decide, by decide⟩, ?_⟩
  obtain ⟨d, hd, hws, -, -, -, -⟩ :=
    C4_window_anchoring [-1, 0, 2, 2, 1, 0] none ⟨2, by decide, by decide⟩
  rw [hd]
  simp only [windowStartOf, minFretOf]
  rw [hws]
  simp

/-- Counterexample to C3 as stated: on `[0,2,2,1,0,0]` the builder yields
`minFret = 1` and `maxFret = 2`, but `windowStart = max 0 minFret = 1`,
not `0` as the claim asserts. -/
theorem C3_open_position_counterexample :
    minFretOf (buildDiagram [0, 2, 2, 1, 0, 0] none) = some 1
    ∧ maxFretOf (buildDiagram [0, 2, 2, 1, 0, 0] none) = some 2
    ∧ windowStartOf (buildDiagram [0, 2, 2, 1, 0, 0] none) = some 1
    ∧ ¬ windowStartOf (buildDiagram [0, 2, 2, 1, 0, 0] none) = some 0 := by
  refine ⟨rfl, rfl, rfl, ?_⟩
  decide

/-- **C3 (amended)**: on `[0,2,2,1,0,0]` the builder yields `minFret = 1`,
`maxFret = 2` and `windowStart = 1` (the spec's `max 0 minFret` formula,
rather than `0`); and `minFret`, `maxFret` and `windowStart` are computed
over the non-sentinel, non-open entries only, so open strings never
affect the fret window. -/
theorem C3_open_position_window :
    (minFretOf (buildDiagram [0, 2, 2, 1, 0, 0] none) = some 1
      ∧ maxFretOf (buildDiagram [0, 2, 2, 1, 0, 0] none) = some 2
      ∧ windowStartOf (buildDiagram [0, 2, 2, 1, 0, 0] none) = some 1)
    ∧ ∀ (ps1 ps2 : FretPosition) (f1 f2 : Option (List Char)),
        frettedOf ps1 = frettedOf ps2 →
        (∃ v ∈ ps1, 0 < v) →
        minFretOf (buildDiagram ps1 f1) = minFretOf (buildDiagram ps2 f2)
        ∧ maxFretOf (buildDiagram ps1 f1) = maxFretOf (buildDiagram ps2 f2)
        ∧ windowStartOf (buildDiagram ps1 f1)
            = windowStartOf (buildDiagram ps2 f2) := by
  refine ⟨⟨rfl, rfl, rfl⟩, ?_⟩
  intro ps1 ps2 f1 f2 hfr hex
  obtain ⟨v, hv, hvpos⟩ := hex
  have hv2 : v ∈ ps2 := by
    have : v ∈ frettedOf ps2 := by
      rw [← hfr]
      simp only [frettedOf, List.mem_filter]
      exact ⟨hv, by simpa using hvpos⟩
    simp only [frettedOf, List.mem_filter] at this
    exact this.1
  rw [buildDiagram, if_neg (not_all_sentinel ps1 v hv (le_of_lt hvpos)),
    buildDiagram, if_neg (not_all_sentinel ps2 v hv2 (le_of_lt hvpos))]
  simp only [minFretOf, maxFretOf, windowStartOf, Option.some.injEq]
  unfold windowStartCalc minFretCalc maxFretCalc
  rw [hfr]
  exact ⟨rfl, rfl, rfl⟩

/-- Witness for C3 (amended): the open strings of `[0,2,2,1,0,0]` can be
dropped without changing the window. -/
theorem C3_open_position_window_witness :
    (frettedOf [0, 2, 2, 1, 0, 0] = frettedOf [-1, 2, 2, 1])
    ∧ windowStartOf (buildDiagram [0, 2, 2, 1, 0, 0] none)
        = windowStartOf (buildDiagram [-1, 2, 2, 1] none) := by
  refine ⟨by decide, ?_⟩
  exact (C3_open_position_window.2 [0, 2, 2, 1, 0, 0] [-1, 2, 2, 1] none none
    (by decide) ⟨2, by decide, by decide⟩).2.2

/-- **C8**: `buildDiagram` is deterministic — two invocations on the same
applicature and finger data yield identical diagrams (the embedding is a
pure function, so no invocation can mutate its input). -/
theorem C8_buildDiagram_deterministic (ps : FretPosition)
    (fingers : Option (List Char))
    (d₁ d₂ : Except DiagramError ChordDiagram)
    (h₁ : buildDiagram ps fingers = d₁) (h₂ : buildDiagram ps fingers = d₂) :
    d₁ = d₂ :=
  h₁.symm.trans h₂

/-- Witness for C8 at the open-position shape `[0,2,2,1,0,0]`. -/
theorem C8_buildDiagram_deterministic_witness :
    buildDiagram [0, 2, 2, 1, 0, 0] none = buildDiagram [0, 2, 2, 1, 0, 0] none :=
  C8_buildDiagram_deterministic [0, 2, 2, 1, 0, 0] none _ _ rfl rfl

/-! ## Setlist viewer navigation (claims C9, C10)

Embedded from `src/src/app/setlist/page.tsx`.  The React state
`currentSongIndex` is a number; the two navigation handlers guard their
updates, and the initial index is read from the `song` URL parameter. -/

/-- From `goToPreviousSong` (page.tsx lines 81–86): decrement only while
the index is positive. -/
def goToPreviousSong (currentSongIndex : Nat) : Nat :=
  if 0 < currentSongIndex then currentSongIndex - 1 else currentSongIndex

/-- From `goToNextSong` (page.tsx lines 88–93): increment only while the
index is below `songs.length - 1`. -/
def goToNextSong (currentSongIndex songsLength : Nat) : Nat :=
  if currentSongIndex < songsLength - 1 then currentSongIndex + 1
  else currentSongIndex

/-- **C9**: for a non-empty setlist and an in-range index, both handlers
keep the index within `[0, songs.length - 1]`; `goToPreviousSong` is the
identity at `0` and otherwise decrements; `goToNextSong` is the identity
at `songs.length - 1` and otherwise increments. -/
theorem C9_navigation_stays_in_range (len i : Nat) (hlen : 1 ≤ len)
    (hi : i ≤ len - 1) :
    (goToPreviousSong i ≤ len - 1 ∧ goToNextSong i len ≤ len - 1)
    ∧ (i = 0 → goToPreviousSong i = i)
    ∧ (0 < i → goToPreviousSong i = i - 1)
    ∧ (i = len - 1 → goToNextSong i len = i)
    ∧ (i < len - 1 → goToNextSong i len = i + 1) := by
  unfold goToPreviousSong goToNextSong
  refine ⟨⟨?_, ?_⟩, ?_, ?_, ?_, ?_⟩ <;> intros <;> split_ifs <;> omega

/-- Witness for C9 in a three-song setlist at index 1. -/
theorem C9_navigation_stays_in_range_witness :
    (1 ≤ 3 ∧ (1 : Nat) ≤ 3 - 1)
    ∧ (goToPreviousSong 1 ≤ 3 - 1 ∧ goToNextSong 1 3 ≤ 3 - 1) :=
  ⟨⟨by decide, by decide⟩,
    (C9_navigation_stays_in_range 3 1 (by decide) (by decide)).1⟩

/-- Decimal digit test for the `parseInt` model. -/
def isDigit (c : Char) : Bool :=
  '0' ≤ c && c ≤ '9'

def digitVal (c : Char) : Nat :=
  c.toNat - 48

def digitsToNat (ds : List Char) : Nat :=
  ds.foldl (fun n c => n * 10 + digitVal c) 0

/-- Model of the JavaScript `parseInt(string)` call on page.tsx line 48,
for decimal inputs: skip leading spaces, read an optional sign and then
the leading run of decimal digits; `none` models `NaN` when no digit is
found.  (The hexadecimal `0x` prefix form of `parseInt` is out of scope;
it also parses to a number and is handled by the same range filter.) -/
def jsParseInt (s : List Char) : Option Int :=
  match s.dropWhile (fun c => c = ' ') with
  | '-' :: rest =>
    if rest.takeWhile isDigit = [] then none
    else some (-(digitsToNat (rest.takeWhile isDigit) : Int))
  | '+' :: rest =>
    if rest.takeWhile isDigit = [] then none
    else some (digitsToNat (rest.takeWhile isDigit))
  | t =>
    if t.takeWhile isDigit = [] then none
    else some (digitsToNat (t.takeWhile isDigit))

/-- The range filter of page.tsx lines 48–51: `!isNaN(index) && index >= 0
&& index < foundSetlist.songs.length` keeps the parsed index, anything
else keeps the default `0`. -/
def clampIndex (parsed : Option Int) (songsLength : Nat) : Nat :=
  match parsed with
  | none => 0
  | some n => if 0 ≤ n ∧ n < (songsLength : Int) then n.toNat else 0

/-- From `SetlistViewerContent` (page.tsx lines 46–52): the initial song
index is `0` unless the `song` parameter is present, truthy (non-empty),
parses to a number `n`, and `0 ≤ n < songs.length`, in which case it is
`n`. -/
def initialSongIndex (param : Option (List Char)) (songsLength : Nat) :
    Nat :=
  match param with
  | none => 0
  | some s => if s = [] then 0 else clampIndex (jsParseInt s) songsLength

/-- **C10**: the initial song index is taken from the `song` parameter
only when it parses to `n` with `0 ≤ n < songs.length`; for every
missing, non-numeric, negative or out-of-range value it stays `0`, so
the subsequent `setlist.songs[currentSongIndex]` access is in bounds
whenever the setlist is non-empty. -/
theorem C10_initial_song_index_in_bounds (len : Nat) (hlen : 1 ≤ len) :
    (∀ param, initialSongIndex param len < len)
    ∧ initialSongIndex none len = 0
    ∧ (∀ s, jsParseInt s = none → initialSongIndex (some s) len = 0)
    ∧ (∀ s n, jsParseInt s = some n → n < 0 →
        initialSongIndex (some s) len = 0)
    ∧ (∀ s n, jsParseInt s = some n → (len : Int) ≤ n →
        initialSongIndex (some s) len = 0)
    ∧ (∀ s n, jsParseInt s = some n → 0 ≤ n → n < (len : Int) →
        initialSongIndex (some s) len = n.toNat) := by
  have hnil : jsParseInt [] = none := rfl
  have hsome : ∀ s, initialSongIndex (some s) len
      = if s = [] then 0 else clampIndex (jsParseInt s) len := fun _ => rfl
  have hclampN : clampIndex none len = 0 := rfl
  have hclampS : ∀ n : Int, clampIndex (some n) len
      = if 0 ≤ n ∧ n < (len : Int) then n.toNat else 0 := fun _ => rfl
  refine ⟨?_, rfl, ?_, ?_, ?_, ?_⟩
  · intro param
    match param with
    | none => simpa [initialSongIndex] using hlen
    | some s =>
      rw [hsome]
      split
      · omega
      · cases hp : jsParseInt s with
        | none => rw [hclampN]; omega
        | some n =>
          rw [hclampS]
          split
          · rename_i hcond
            omega
          · omega
  · intro s hp
    rw [hsome]
    split
    · rfl
    · rw [hp, hclampN]
  · intro s n hp hn
    have hs : s ≠ [] := fun hnilS => by rw [hnilS, hnil] at hp; cases hp
    rw [hsome, if_neg hs, hp, hclampS, if_neg (by omega)]
  · intro s n hp hn
    have hs : s ≠ [] := fun hnilS => by rw [hnilS, hnil] at hp; cases hp
    rw [hsome, if_neg hs, hp, hclampS, if_neg (by omega)]
  · intro s n hp h0 hlt
    have hs : s ≠ [] := fun hnilS => by rw [hnilS, hnil] at hp; cases hp
    rw [hsome, if_neg hs, hp, hclampS, if_pos ⟨h0, hlt⟩]

/-- Witness for C10 with a two-song setlist and the parameter `"5"`. -/
theorem C10_initial_song_index_in_bounds_witness :
    (1 ≤ 2)
    ∧ initialSongIndex (some "5".data) 2 < 2
    ∧ initialSongIndex none 2 = 0 :=
  ⟨by decide,
    (C10_initial_song_index_in_bounds 2 (by decide)).1 (some "5".data),
    (C10_initial_song_index_in_bounds 2 (by decide)).2.1⟩

/-! ## ChordPro export / import (claim C6)

Modelled from the spec: `toChordPro` and `parseChordPro` are absent from
`src/` (only the `SongDetail` record of `src/types/index.ts` is given).
The text is modelled at line granularity (a ChordPro document is its list
of lines); the metadata block carries title, artist and optional capo —
the fields the claim requires to round-trip — and each body line
interleaves `[chord]` tokens with lyric runs. -/

/-- One item of a chord-annotated lyric line: a `[...]` chord token or a
run of lyric text. -/
inductive ChordProItem where
  | chord : List Char → ChordProItem
  | lyric : List Char → ChordProItem
deriving DecidableEq

/-- The structured song data exchanged through ChordPro: title, artist,
optional capo, and the chord-annotated body lines (the fields of
`SongDetail` the claim requires to survive the round trip). -/
structure ChordProSong where
  title : List Char
  artist : List Char
  capo : Option Nat
  body : List (List ChordProItem)
deriving DecidableEq

def digitChar : Nat → Char
  | 0 => '0'
  | 1 => '1'
  | 2 => '2'
  | 3 => '3'
  | 4 => '4'
  | 5 => '5'
  | 6 => '6'
  | 7 => '7'
  | 8 => '8'
  | _ => '9'

/-- Decimal rendering of a natural number. -/
def natToChars (n : Nat) : List Char :=
  if h : n < 10 then [digitChar n]
  else natToChars (n / 10) ++ [digitChar (n % 10)]
termination_by n
decreasing_by
  exact Nat.div_lt_self (by omega) (by omega)

def titlePre : List Char := "\x7btitle: ".data

def artistPre : List Char := "\x7bartist: ".data

def capoPre : List Char := "\x7bcapo: ".data

def renderItem : ChordProItem → List Char
  | .chord c => '[' :: (c ++ [']'])
  | .lyric l => l

def renderItems : List ChordProItem → List Char
  | [] => []
  | it :: rest => renderItem it ++ renderItems rest

/-- Modelled from the spec: `toChordPro` emits the metadata block
(`\x7btitle: ...\x7d`, `\x7bartist: ...\x7d`, optional `\x7bcapo: N\x7d`)
followed by the body lines, each chord token rendered as `[name]` before
the lyric text it annotates. -/
def toChordPro (song : ChordProSong) : List (List Char) :=
  [titlePre ++ song.title ++ ['\x7d'], artistPre ++ song.artist ++ ['\x7d']]
    ++ (match song.capo with
        | some n => [capoPre ++ natToChars n ++ ['\x7d']]
        | none => [])
    ++ song.body.map renderItems

def dropPre : List Char → List Char → Option (List Char)
  | [], rest => some rest
  | _ :: _, [] => none
  | p :: ps, c :: cs => if c = p then dropPre ps cs else none

/-- A directive line `pre ++ value ++ "\x7d"` gives back its value. -/
def unwrapDirective (pre line : List Char) : Option (List Char) :=
  (dropPre pre line).bind (fun rest =>
    if rest.getLast? = some '\x7d' then some rest.dropLast else none)

/-- State of the body-line scanner: outside any token, inside a `[...]`
chord token, or inside a lyric run (with the characters read so far, in
reverse). -/
inductive ScanMode where
  | out : ScanMode
  | chord : List Char → ScanMode
  | lyric : List Char → ScanMode

/-- Body-line scanner: one pass over the characters, driven by the scan
state (structural recursion, so concrete lines evaluate in the kernel). -/
def plStep : List Char → ScanMode → List ChordProItem
  | [], .out => []
  | [], .chord acc => [.chord acc.reverse]
  | [], .lyric acc => [.lyric acc.reverse]
  | c :: cs, .out =>
    if c = '[' then plStep cs (.chord []) else plStep cs (.lyric [c])
  | c :: cs, .chord acc =>
    if c = ']' then .chord acc.reverse :: plStep cs .out
    else plStep cs (.chord (c :: acc))
  | c :: cs, .lyric acc =>
    if c = '[' then .lyric acc.reverse :: plStep cs (.chord [])
    else plStep cs (.lyric (c :: acc))

/-- Parsing one body line: scan it from the outside state. -/
def plOut (line : List Char) : List ChordProItem :=
  plStep line .out

/-- One step of the import fold: a line opening with the directive brace
updates the metadata (an unrecognized or invalid directive is dropped and
parsing continues); any other line is parsed as a chord-annotated body
line. -/
def applyLine (song : ChordProSong) (line : List Char) : ChordProSong :=
  if line.head? = some '\x7b' then
    match unwrapDirective titlePre line with
    | some v => { song with title := v }
    | none =>
      match unwrapDirective artistPre line with
      | some v => { song with artist := v }
      | none =>
        match unwrapDirective capoPre line with
        | some v =>
          if v ≠ [] ∧ v.all isDigit then
            { song with capo := some (digitsToNat v) }
          else song
        | none => song
  else { song with body := song.body ++ [plOut line] }

/-- Modelled from the spec: `parseChordPro` over the document lines. -/
def parseChordPro (lines : List (List Char)) : ChordProSong :=
  lines.foldl applyLine ⟨[], [], none, []⟩

/-- Canonical chord-annotated lines.  `ChordProItem` lists are a free
data type, so they contain shapes the ChordPro text format cannot even
express; this predicate carves out exactly the canonical image, each
condition forced by the format (the examples before the round-trip
theorem exhibit the loss for each violated condition): a chord name
containing `]` would be cut short by its own closing bracket; an empty
lyric run renders to nothing; a lyric run containing `[` would open a
chord token; two adjacent lyric runs render to one run and merge back
into a single item. -/
def wfItems : List ChordProItem → Bool
  | [] => true
  | .chord c :: rest => decide (']' ∉ c) && wfItems rest
  | .lyric l :: rest =>
    decide ('[' ∉ l) && decide (l ≠ [])
      && (match rest with
          | .lyric _ :: _ => false
          | _ => true)
      && wfItems rest

/-- A body line must not begin with the directive brace: on import the
spec drops any `\x7b...\x7d` line that is not a recognized directive, so
a lyric line opening with the brace would be consumed as metadata
instead of surviving as a body line. -/
def headOk : List ChordProItem → Bool
  | .lyric (c :: _) :: _ => decide (c ≠ '\x7b')
  | _ => true

/-- A renderable body line: canonical items that do not begin like a
directive. -/
def wfLine (items : List ChordProItem) : Bool :=
  wfItems items && headOk items

/-- A song whose body lines are all canonical — the "same metadata fields
are supported on both ends" proviso of the round-trip contract, stated on
the data: exactly the songs whose ChordPro rendering loses nothing. -/
def wfSong (song : ChordProSong) : Bool :=
  song.body.all wfLine

/-! ## Decimal round-trip lemmas -/

theorem digitVal_digitChar (n : Nat) (h : n < 10) :
    digitVal (digitChar n) = n := by
  interval_cases n <;> rfl

theorem digitChar_isDigit (n : Nat) : isDigit (digitChar n) = true := by
  rcases n with _ | _ | _ | _ | _ | _ | _ | _ | _ | n <;> rfl

theorem natToChars_all_digits (n : Nat) :
    (natToChars n).all isDigit = true := by
  induction n using Nat.strong_induction_on with
  | _ n ih =>
    rw [natToChars]
    split
    · simp [digitChar_isDigit]
    · rename_i h
      rw [List.all_append]
      have h1 := ih (n / 10) (Nat.div_lt_self (by omega) (by omega))
      simp [h1, digitChar_isDigit]

theorem natToChars_ne_nil (n : Nat) : natToChars n ≠ [] := by
  rw [natToChars]
  split
  · simp
  · simp

theorem digitsToNat_natToChars (n : Nat) :
    digitsToNat (natToChars n) = n := by
  induction n using Nat.strong_induction_on with
  | _ n ih =>
    rw [natToChars]
    split
    · rename_i h
      show 0 * 10 + digitVal (digitChar n) = n
      rw [digitVal_digitChar n h]
      omega
    · rename_i h
      rw [digitsToNat, List.foldl_append]
      have hrec := ih (n / 10) (Nat.div_lt_self (by omega) (by omega))
      rw [digitsToNat] at hrec
      rw [hrec]
      show n / 10 * 10 + digitVal (digitChar (n % 10)) = n
      rw [digitVal_digitChar (n % 10) (Nat.mod_lt _ (by omega))]
      omega

/-! ## Directive-line lemmas -/

theorem dropPre_append (p r : List Char) : dropPre p (p ++ r) = some r := by
  induction p with
  | nil => rfl
  | cons c cs ih => simp [dropPre, ih]

theorem unwrapDirective_emit (pre v : List Char) :
    unwrapDirective pre (pre ++ (v ++ ['\x7d'])) = some v := by
  rw [unwrapDirective, dropPre_append, Option.some_bind]
  rw [if_pos (List.getLast?_concat v)]
  rw [List.dropLast_concat]

/-! ## Body-line scanner inverse lemmas -/

theorem plStep_chord_run (cs : List Char) (rest : List Char) :
    ∀ acc, ']' ∉ cs →
      plStep (cs ++ ']' :: rest) (.chord acc)
        = .chord (acc.reverse ++ cs) :: plOut rest := by
  induction cs with
  | nil =>
    intro acc _
    simp [plStep, plOut]
  | cons c cs2 ih =>
    intro acc hc
    have hcne : c ≠ ']' := fun hEq => hc (hEq ▸ List.mem_cons_self c cs2)
    have hcs2 : ']' ∉ cs2 := fun hm => hc (List.mem_cons_of_mem c hm)
    rw [List.cons_append, plStep, if_neg hcne, ih (c :: acc) hcs2]
    simp

theorem plStep_lyric_end (xs : List Char) :
    ∀ acc, '[' ∉ xs → plStep xs (.lyric acc) = [.lyric (acc.reverse ++ xs)] := by
  induction xs with
  | nil =>
    intro acc _
    simp [plStep]
  | cons x xs2 ih =>
    intro acc hx
    have hxne : x ≠ '[' := fun hEq => hx (hEq ▸ List.mem_cons_self x xs2)
    have hxs2 : '[' ∉ xs2 := fun hm => hx (List.mem_cons_of_mem x hm)
    rw [plStep, if_neg hxne, ih (x :: acc) hxs2]
    simp

theorem plStep_lyric_chord (xs : List Char) (t : List Char) :
    ∀ acc, '[' ∉ xs →
      plStep (xs ++ '[' :: t) (.lyric acc)
        = .lyric (acc.reverse ++ xs) :: plStep t (.chord []) := by
  induction xs with
  | nil =>
    intro acc _
    simp [plStep]
  | cons x xs2 ih =>
    intro acc hx
    have hxne : x ≠ '[' := fun hEq => hx (hEq ▸ List.mem_cons_self x xs2)
    have hxs2 : '[' ∉ xs2 := fun hm => hx (List.mem_cons_of_mem x hm)
    rw [List.cons_append, plStep, if_neg hxne, ih (x :: acc) hxs2]
    simp

/-- Scanning a rendered canonical line recovers exactly its items. -/
theorem plOut_renderItems :
    ∀ items, wfItems items = true → plOut (renderItems items) = items
  | [], _ => rfl
  | .chord c :: tl, h => by
    simp only [wfItems, Bool.and_eq_true, decide_eq_true_eq] at h
    rw [renderItems, renderItem, List.cons_append, plOut, plStep, if_pos rfl,
      List.append_assoc, List.singleton_append,
      plStep_chord_run c (renderItems tl) [] h.1,
      plOut_renderItems tl h.2]
    simp
  | .lyric l :: tl, h => by
    simp only [wfItems, Bool.and_eq_true, decide_eq_true_eq] at h
    have hl : '[' ∉ l := h.1.1.1
    have hne : l ≠ [] := h.1.1.2
    have htl : wfItems tl = true := h.2
    obtain ⟨x, xs, rfl⟩ : ∃ x xs, l = x :: xs := by
      cases l with
      | nil => exact absurd rfl hne
      | cons a b => exact ⟨a, b, rfl⟩
    have hxne : x ≠ '[' := fun hEq => hl (hEq ▸ List.mem_cons_self x xs)
    have hxs : '[' ∉ xs := fun hm => hl (List.mem_cons_of_mem x hm)
    cases tl with
    | nil =>
      rw [renderItems, renderItem, renderItems, List.append_nil,
        plOut, plStep, if_neg hxne, plStep_lyric_end xs [x] hxs]
      simp
    | cons hd2 tl2 =>
      cases hd2 with
      | lyric l2 =>
        exact absurd h.1.2 (by simp)
      | chord c2 =>
        simp only [wfItems, Bool.and_eq_true, decide_eq_true_eq] at htl
        rw [renderItems, renderItem, renderItems, renderItem,
          List.cons_append, plOut, plStep, if_neg hxne, List.cons_append,
          List.append_assoc, List.singleton_append,
          plStep_lyric_chord xs ((c2 ++ ']' :: renderItems tl2)) [x] hxs,
          plStep_chord_run c2 (renderItems tl2) [] htl.1,
          plOut_renderItems tl2 htl.2]
        simp
termination_by items => items.length

/-! ## Import-fold lemmas -/

theorem applyLine_title (s : ChordProSong) (v : List Char) :
    applyLine s (titlePre ++ (v ++ ['\x7d'])) = { s with title := v } := by
  rw [applyLine,
    if_pos (show (titlePre ++ (v ++ ['\x7d'])).head? = some '\x7b' from rfl),
    unwrapDirective_emit]

theorem applyLine_artist (s : ChordProSong) (v : List Char) :
    applyLine s (artistPre ++ (v ++ ['\x7d'])) = { s with artist := v } := by
  rw [applyLine,
    if_pos (show (artistPre ++ (v ++ ['\x7d'])).head? = some '\x7b' from rfl),
    show unwrapDirective titlePre (artistPre ++ (v ++ ['\x7d'])) = none from rfl,
    unwrapDirective_emit]

theorem applyLine_capo (s : ChordProSong) (n : Nat) :
    applyLine s (capoPre ++ (natToChars n ++ ['\x7d']))
      = { s with capo := some n } := by
  rw [applyLine,
    if_pos (show (capoPre ++ (natToChars n ++ ['\x7d'])).head? = some '\x7b' from
      rfl),
    show unwrapDirective titlePre (capoPre ++ (natToChars n ++ ['\x7d'])) = none
      from rfl,
    show unwrapDirective artistPre (capoPre ++ (natToChars n ++ ['\x7d'])) = none
      from rfl,
    unwrapDirective_emit capoPre (natToChars n)]
  show (if natToChars n ≠ [] ∧ (natToChars n).all isDigit = true then
      { s with capo := some (digitsToNat (natToChars n)) } else s) = _
  rw [if_pos ⟨natToChars_ne_nil n, natToChars_all_digits n⟩,
    digitsToNat_natToChars n]

theorem applyLine_body (s : ChordProSong) (items : List ChordProItem)
    (h : wfLine items = true) :
    applyLine s (renderItems items) = { s with body := s.body ++ [items] } := by
  rw [wfLine, Bool.and_eq_true] at h
  have hwf : wfItems items = true := h.1
  have hhead : ¬ (renderItems items).head? = some '\x7b' := by
    cases items with
    | nil => simp [renderItems]
    | cons hd tl =>
      cases hd with
      | chord c =>
        rw [renderItems, renderItem, List.cons_append]
        intro hc
        exact absurd (Option.some.inj hc) (by decide)
      | lyric l =>
        have hne : l ≠ [] := by
          simp only [wfItems, Bool.and_eq_true, decide_eq_true_eq] at hwf
          exact hwf.1.1.2
        obtain ⟨x, xs, rfl⟩ : ∃ x xs, l = x :: xs := by
          cases l with
          | nil => exact absurd rfl hne
          | cons a b => exact ⟨a, b, rfl⟩
        have hx : x ≠ '\x7b' := of_decide_eq_true h.2
        rw [renderItems, renderItem, List.cons_append]
        intro hc
        exact absurd (Option.some.inj hc) hx
  rw [applyLine, if_neg hhead, plOut_renderItems items hwf]

theorem foldl_applyLine_bodies (bodies : List (List ChordProItem)) :
    ∀ s : ChordProSong, bodies.all wfLine = true →
      (bodies.map renderItems).foldl applyLine s
        = { s with body := s.body ++ bodies } := by
  induction bodies with
  | nil =>
    intro s _
    show s = _
    cases s
    simp
  | cons b bs ih =>
    intro s hall
    rw [List.all_cons, Bool.and_eq_true] at hall
    rw [List.map_cons, List.foldl_cons, applyLine_body s b hall.1,
      ih _ hall.2]
    simp

/-! Each canonicity condition of `wfItems`/`headOk` is necessary — the
round trip really does lose the corresponding non-canonical shapes: -/

example :
    parseChordPro (toChordPro ⟨"t".data, "a".data, none,
        [[ChordProItem.lyric "ab".data, ChordProItem.lyric "cd".data]]⟩)
      = ⟨"t".data, "a".data, none, [[ChordProItem.lyric "abcd".data]]⟩ := by
  decide

example :
    parseChordPro (toChordPro ⟨"t".data, "a".data, none,
        [[ChordProItem.lyric []]]⟩)
      = ⟨"t".data, "a".data, none, [[]]⟩ := by
  decide

example :
    parseChordPro (toChordPro ⟨"t".data, "a".data, none,
        [[ChordProItem.lyric "\x7bx".data]]⟩)
      = ⟨"t".data, "a".data, none, []⟩ := by
  decide

example :
    parseChordPro (toChordPro ⟨"t".data, "a".data, none,
        [[ChordProItem.chord "A]B".data]]⟩)
      = ⟨"t".data, "a".data, none,
          [[ChordProItem.chord "A".data, ChordProItem.lyric "B]".data]]⟩ := by
  decide

/-- **C6**: for every song with canonical chord-annotated lines (the
"same metadata fields are supported on both ends" proviso, see
`wfSong`), `parseChordPro (toChordPro song)` is `song` itself — in
particular it reproduces the same title, artist, capo and
chord-annotated body lines, stated field by field — and re-emitting the
re-parsed text yields the identical ChordPro text (round-trip
stability). -/
theorem C6_chordpro_round_trip (song : ChordProSong)
    (hwf : wfSong song = true) :
    parseChordPro (toChordPro song) = song
    ∧ (parseChordPro (toChordPro song)).title = song.title
    ∧ (parseChordPro (toChordPro song)).artist = song.artist
    ∧ (parseChordPro (toChordPro song)).capo = song.capo
    ∧ (parseChordPro (toChordPro song)).body = song.body
    ∧ toChordPro (parseChordPro (toChordPro song)) = toChordPro song := by
  have h1 : parseChordPro (toChordPro song) = song := by
    obtain ⟨title, artist, capo, body⟩ := song
    rw [wfSong] at hwf
    cases capo with
    | none =>
      show (([titlePre ++ (title ++ ['\x7d']),
          artistPre ++ (artist ++ ['\x7d'])]
            ++ ([] ++ body.map renderItems)).foldl applyLine
          ⟨[], [], none, []⟩) = _
      rw [List.nil_append, List.cons_append, List.cons_append,
        List.nil_append, List.foldl_cons, applyLine_title,
        List.foldl_cons, applyLine_artist,
        foldl_applyLine_bodies body _ hwf]
      rfl
    | some n =>
      show (([titlePre ++ (title ++ ['\x7d']),
          artistPre ++ (artist ++ ['\x7d'])]
            ++ ([capoPre ++ (natToChars n ++ ['\x7d'])]
              ++ body.map renderItems)).foldl applyLine
          ⟨[], [], none, []⟩) = _
      rw [List.cons_append, List.cons_append, List.nil_append,
        List.cons_append, List.foldl_cons, applyLine_title,
        List.foldl_cons, applyLine_artist, List.foldl_cons,
        applyLine_capo, List.nil_append,
        foldl_applyLine_bodies body _ hwf]
      rfl
  exact ⟨h1, by rw [h1], by rw [h1], by rw [h1], by rw [h1], by rw [h1]⟩

/-- Witness for C6 at a two-line song with a chord/lyric line and capo. -/
theorem C6_chordpro_round_trip_witness :
    (wfSong ⟨"My Song".data, "Artist".data, some 12,
        [[ChordProItem.chord "G7/B".data, ChordProItem.lyric "hello".data],
         [ChordProItem.lyric "plain".data]]⟩ = true)
    ∧ parseChordPro (toChordPro ⟨"My Song".data, "Artist".data, some 12,
        [[ChordProItem.chord "G7/B".data, ChordProItem.lyric "hello".data],
         [ChordProItem.lyric "plain".data]]⟩)
      = ⟨"My Song".data, "Artist".data, some 12,
        [[ChordProItem.chord "G7/B".data, ChordProItem.lyric "hello".data],
         [ChordProItem.lyric "plain".data]]⟩ :=
  ⟨by decide,
    (C6_chordpro_round_trip ⟨"My Song".data, "Artist".data, some 12,
      [[ChordProItem.chord "G7/B".data, ChordProItem.lyric "hello".data],
       [ChordProItem.lyric "plain".data]]⟩ (by decide)).1⟩

end Freetar
